import Mathlib

/-!
Verification of the bitnames web-record validation core
(`src/bitnames.rs`): a shallow embedding of the data model
(`BitnameInfo`, `WebRecord`), the canonical-commitment computation
(JCS serialization + SHA-256), version and commitment checks,
combined validation, and the typed field accessors, together with
theorems settling the specified properties.

Machine integers are modelled as `Nat`/`Int` with explicit reduction
modulo `2 ^ 32` where the source performs wrapping 32-bit arithmetic.
Fallible operations return `Option`/`Except`.
-/

namespace Bitnames

/-- The JSON-like value model of `serde_json::Value` as used by the
source: null, boolean, number, string, array, object.  Objects are
association lists of string keys to values (a `serde_json::Map` never
holds two entries with the same key; that invariant appears as a
`Nodup` hypothesis where a theorem needs it).  Numbers are modelled as
integers: `serde_json::Number` also carries finite floats, but no
claim of this development discriminates on float-valued numbers. -/
inductive Json where
  | null : Json
  | bool (b : Bool) : Json
  | num (n : Int) : Json
  | str (s : String) : Json
  | arr (elems : List Json) : Json
  | obj (entries : List (String × Json)) : Json

/-- UTF-8 encoding of a single character, as a list of byte values. -/
def utf8Char (c : Char) : List Nat :=
  let n := c.toNat
  if n < 128 then [n]
  else if n < 2048 then [192 + n / 64, 128 + n % 64]
  else if n < 65536 then [224 + n / 4096, 128 + n / 64 % 64, 128 + n % 64]
  else [240 + n / 262144, 128 + n / 4096 % 64, 128 + n / 64 % 64, 128 + n % 64]

/-- UTF-8 encoding of a string, as a list of byte values. -/
def utf8 (s : String) : List Nat := s.data.flatMap utf8Char

/-- Lower-case hexadecimal digit for a value below 16 (byte value). -/
def hexDigit (n : Nat) : Nat := if n < 10 then 48 + n else 87 + n

/-- JCS (RFC 8785) escape of one character inside a JSON string:
quote and backslash are escaped, the control characters backspace,
tab, line feed, form feed, carriage return get their two-character
escapes, other control characters below 0x20 get a lower-case
unicode escape, and everything else is emitted as raw UTF-8. -/
def jcsEscChar (c : Char) : List Nat :=
  let n := c.toNat
  if n = 34 then [92, 34]
  else if n = 92 then [92, 92]
  else if n = 8 then [92, 98]
  else if n = 9 then [92, 116]
  else if n = 10 then [92, 110]
  else if n = 12 then [92, 102]
  else if n = 13 then [92, 114]
  else if n < 32 then [92, 117, 48, 48, hexDigit (n / 16), hexDigit (n % 16)]
  else utf8Char c

/-- JCS serialization of a JSON string: quoted, characters escaped. -/
def jcsString (s : String) : List Nat := 34 :: s.data.flatMap jcsEscChar ++ [34]

/-- Decimal digit bytes of a positive natural, most significant first,
accumulated into `acc`. -/
def natDigitsAux (n : Nat) (acc : List Nat) : List Nat :=
  if h : n = 0 then acc
  else natDigitsAux (n / 10) ((48 + n % 10) :: acc)
termination_by n
decreasing_by exact Nat.div_lt_self (Nat.pos_of_ne_zero h) (by decide)

/-- Decimal digit bytes of a natural number. -/
def natDecimal (n : Nat) : List Nat := if n = 0 then [48] else natDigitsAux n []

/-- Decimal byte serialization of an integer (JCS integer form). -/
def intDecimal : Int → List Nat
  | Int.ofNat n => natDecimal n
  | Int.negSucc n => 45 :: natDecimal (n + 1)

/-- Comma-separated concatenation of serialized parts (byte 44). -/
def joinComma (parts : List (List Nat)) : List Nat :=
  (List.intersperse [44] parts).flatten

/-- Order on object entries used by canonicalization: compare keys with
the lexicographic codepoint order on strings. -/
def keyLe (a b : String × Json) : Prop := a.1 ≤ b.1

instance : DecidableRel keyLe := fun a b =>
  inferInstanceAs (Decidable (a.1 ≤ b.1))

instance : IsTotal (String × Json) keyLe := ⟨fun a b => le_total a.1 b.1⟩

instance : IsTrans (String × Json) keyLe :=
  ⟨fun _ _ _ hab hbc => le_trans hab hbc⟩

/-- Sort the entries of a JSON object by key, in the deterministic
lexicographic order over the raw key codepoints used by canonical
serialization. -/
def sortEntries (es : List (String × Json)) : List (String × Json) :=
  List.insertionSort keyLe es

theorem sizeOf_sortEntries (es : List (String × Json)) :
    sizeOf (sortEntries es) = sizeOf es :=
  (List.perm_insertionSort keyLe es).sizeOf_eq_sizeOf

mutual

/-- Canonical JSON serialization to bytes, the model of
`serde_jcs::to_vec` applied by `WebRecord::commitment`.  Modelled from
the spec: the `serde_jcs` crate (RFC 8785) is a dependency whose source
is not under `src/`; the spec prescribes no insignificant whitespace, a
single unambiguous encoding per value, and object keys sorted in
lexicographic order over the raw key bytes/codepoints at every nesting
level.  The result is `Option` because the crate returns a `Result`;
within this closed value model every case succeeds (the only failure
paths of the crate, non-finite floats and non-string map keys, are not
representable in a `serde_json::Value`). -/
def serde_jcs_to_vec : Json → Option (List Nat)
  | Json.null => some [110, 117, 108, 108]
  | Json.bool true => some [116, 114, 117, 101]
  | Json.bool false => some [102, 97, 108, 115, 101]
  | Json.num n => some (intDecimal n)
  | Json.str s => some (jcsString s)
  | Json.arr xs =>
      (serializeElems xs).map (fun parts => 91 :: joinComma parts ++ [93])
  | Json.obj es =>
      (serializeEntries (sortEntries es)).map
        (fun parts => 123 :: joinComma parts ++ [125])
termination_by v => sizeOf v
decreasing_by
  all_goals simp_wf
  rw [sizeOf_sortEntries]; omega

/-- Serialize the elements of a JSON array in order, failing if any
element fails. -/
def serializeElems : List Json → Option (List (List Nat))
  | [] => some []
  | x :: xs =>
      match serde_jcs_to_vec x, serializeElems xs with
      | some b, some bs => some (b :: bs)
      | _, _ => none
termination_by l => sizeOf l

/-- Serialize already-sorted object entries in order, each as
quoted key, colon (byte 58), value. -/
def serializeEntries : List (String × Json) → Option (List (List Nat))
  | [] => some []
  | (k, v) :: es =>
      match serde_jcs_to_vec v, serializeEntries es with
      | some vb, some bs => some ((jcsString k ++ 58 :: vb) :: bs)
      | _, _ => none
termination_by l => sizeOf l

end

/-! SHA-256, the hash applied by `WebRecord::commitment` through the
`crypto` crate (`Sha256::new`, `input`, `result`).  Modelled from the
FIPS 180-4 algorithm that crate implements; bytes are `Nat` values
below 256 and words are `Nat` values reduced modulo `2 ^ 32`. -/

/-- Rotation of a 32-bit word to the right by `n` positions. -/
def rotr (n w : Nat) : Nat := ((w >>> n) ||| (w <<< (32 - n))) % 4294967296

/-- First schedule mixing function of the SHA-256 key expansion. -/
def ssig0 (w : Nat) : Nat := rotr 7 w ^^^ rotr 18 w ^^^ (w >>> 3)

/-- Second schedule mixing function of the SHA-256 key expansion. -/
def ssig1 (w : Nat) : Nat := rotr 17 w ^^^ rotr 19 w ^^^ (w >>> 10)

/-- First state mixing function of the SHA-256 round. -/
def bsig0 (w : Nat) : Nat := rotr 2 w ^^^ rotr 13 w ^^^ rotr 22 w

/-- Second state mixing function of the SHA-256 round. -/
def bsig1 (w : Nat) : Nat := rotr 6 w ^^^ rotr 11 w ^^^ rotr 25 w

/-- The eight working variables of the SHA-256 compression function. -/
structure Sha256State where
  a : Nat
  b : Nat
  c : Nat
  d : Nat
  e : Nat
  f : Nat
  g : Nat
  h : Nat

/-- Starting hash state of SHA-256 (FIPS 180-4 section 5.3.3, written
in decimal). -/
def sha256Init : Sha256State :=
  ⟨1779033703, 3144134277, 1013904242, 2773480762,
   1359893119, 2600822924, 528734635, 1541459225⟩

/-- Round constant table of SHA-256 (FIPS 180-4 section 4.2.2, written
in decimal). -/
def sha256K : List Nat :=
  [1116352408, 1899447441, 3049323471, 3921009573,
   961987163, 1508970993, 2453635748, 2870763221,
   3624381080, 310598401, 607225278, 1426881987,
   1925078388, 2162078206, 2614888103, 3248222580,
   3835390401, 4022224774, 264347078, 604807628,
   770255983, 1249150122, 1555081692, 1996064986,
   2554220882, 2821834349, 2952996808, 3210313671,
   3336571891, 3584528711, 113926993, 338241895,
   666307205, 773529912, 1294757372, 1396182291,
   1695183700, 1986661051, 2177026350, 2456956037,
   2730485921, 2820302411, 3259730800, 3345764771,
   3516065817, 3600352804, 4094571909, 275423344,
   430227734, 506948616, 659060556, 883997877,
   958139571, 1322822218, 1537002063, 1747873779,
   1955562222, 2024104815, 2227730452, 2361852424,
   2428436474, 2756734187, 3204031479, 3329325298]

/-- Big-endian 32-bit words from a byte list (four bytes per word). -/
def wordsOfBytes : List Nat → List Nat
  | b0 :: b1 :: b2 :: b3 :: rest =>
      (b0 * 16777216 + b1 * 65536 + b2 * 256 + b3) :: wordsOfBytes rest
  | _ => []

/-- Extend the sixteen chunk words to the sixty-four schedule words. -/
def sha256Schedule (w16 : List Nat) : List Nat :=
  (List.range 48).foldl
    (fun ws _ =>
      ws ++ [(ssig1 (ws.getD (ws.length - 2) 0) + ws.getD (ws.length - 7) 0 +
              ssig0 (ws.getD (ws.length - 15) 0) +
              ws.getD (ws.length - 16) 0) % 4294967296])
    w16

/-- One round of the SHA-256 compression function, consuming a pair of
a round constant and a schedule word. -/
def sha256Round (s : Sha256State) (kw : Nat × Nat) : Sha256State :=
  let ch := (s.e &&& s.f) ^^^ ((s.e ^^^ 4294967295) &&& s.g)
  let maj := (s.a &&& s.b) ^^^ (s.a &&& s.c) ^^^ (s.b &&& s.c)
  let t1 := (s.h + bsig1 s.e + ch + kw.1 + kw.2) % 4294967296
  let t2 := (bsig0 s.a + maj) % 4294967296
  ⟨(t1 + t2) % 4294967296, s.a, s.b, s.c,
   (s.d + t1) % 4294967296, s.e, s.f, s.g⟩

/-- Process one 64-byte chunk: run the compression rounds and add the
result into the incoming state, word-wise modulo `2 ^ 32`. -/
def sha256Chunk (s : Sha256State) (chunk : List Nat) : Sha256State :=
  let ws := sha256Schedule (wordsOfBytes chunk)
  let t := (sha256K.zip ws).foldl sha256Round s
  ⟨(s.a + t.a) % 4294967296, (s.b + t.b) % 4294967296,
   (s.c + t.c) % 4294967296, (s.d + t.d) % 4294967296,
   (s.e + t.e) % 4294967296, (s.f + t.f) % 4294967296,
   (s.g + t.g) % 4294967296, (s.h + t.h) % 4294967296⟩

/-- Big-endian eight-byte encoding of the bit length. -/
def lenBytes64 (n : Nat) : List Nat :=
  [n / 72057594037927936 % 256, n / 281474976710656 % 256,
   n / 1099511627776 % 256, n / 4294967296 % 256,
   n / 16777216 % 256, n / 65536 % 256, n / 256 % 256, n % 256]

/-- SHA-256 padding: append byte 0x80, zero bytes to reach 56 modulo
64, then the message bit length as eight big-endian bytes. -/
def sha256Pad (msg : List Nat) : List Nat :=
  msg ++ 128 :: List.replicate ((119 - msg.length % 64) % 64) 0 ++
    lenBytes64 (8 * msg.length)

/-- Split a byte list into 64-byte chunks. -/
def chunks64 (l : List Nat) : List (List Nat) :=
  if h : l = [] then [] else l.take 64 :: chunks64 (l.drop 64)
termination_by l.length
decreasing_by
  simp only [List.length_drop]
  have : 0 < l.length := List.length_pos.mpr h
  omega

/-- Big-endian four-byte encoding of a 32-bit word. -/
def wordBytes (w : Nat) : List Nat :=
  [w / 16777216 % 256, w / 65536 % 256, w / 256 % 256, w % 256]

/-- Digest bytes of a final hash state: the eight words, big endian. -/
def digestBytes (s : Sha256State) : List Nat :=
  wordBytes s.a ++ wordBytes s.b ++ wordBytes s.c ++ wordBytes s.d ++
  wordBytes s.e ++ wordBytes s.f ++ wordBytes s.g ++ wordBytes s.h

/-- SHA-256 of a byte list: pad, fold the compression over the chunks,
emit the 32 digest bytes. -/
def sha256 (msg : List Nat) : List Nat :=
  digestBytes ((chunks64 (sha256Pad msg)).foldl sha256Chunk sha256Init)

theorem sha256_length (msg : List Nat) : (sha256 msg).length = 32 := by
  simp [sha256, digestBytes, wordBytes]

/-! The `WebRecord` type and its methods, from `src/bitnames.rs`. -/

/-- A record resolved via the IP address of a BitName: the wrapped
`serde_json::Map<String, JsonValue>` of `struct WebRecord`. -/
abbrev WebRecord := List (String × Json)

/-- Key lookup in a JSON object, the model of `JsonMap::get`: the value
of the first entry whose key equals `k`, if any. -/
def jget (m : List (String × Json)) (k : String) : Option Json :=
  match m with
  | [] => none
  | (k1, v) :: rest => if k1 = k then some v else jget rest k

/-- The `JsonValue::as_str` accessor: the string when the value is a
string, absent otherwise. -/
def jsonAsStr : Json → Option String
  | Json.str s => some s
  | _ => none

/-- The `JsonValue::as_object` accessor: the entries when the value is
an object, absent otherwise. -/
def jsonAsObject : Json → Option (List (String × Json))
  | Json.obj es => some es
  | _ => none

/-- The `WebRecord::version_ok` check: true exactly when the value at
key "version" is the string "0.0.1". -/
def version_ok (r : WebRecord) : Bool :=
  match jget r "version" with
  | some (Json.str version_string) => version_string == "0.0.1"
  | _ => false

/-- The `WebRecord::commitment` method: canonicalize and compute the
SHA-256 digest as a commitment.  The `unwrap` of the source is
modelled by `Option.getD []`; its unreachability is a theorem below. -/
def commitment (r : WebRecord) : List Nat :=
  sha256 ((serde_jcs_to_vec (Json.obj r)).getD [])

/-- The `WebRecord::commitment_ok` comparison against an expected
32-byte commitment. -/
def commitment_ok (r : WebRecord) (expected : List Nat) : Bool :=
  commitment r == expected

/-- The `WebRecord::validate` method, an `anyhow::Result<()>` modelled
as `Except` over the exact `bail!` message strings of the source. -/
def validate (r : WebRecord) (expected_commitment : Option (List Nat)) :
    Except String Unit :=
  if !version_ok r then
    Except.error "version number missing or unsupported"
  else
    match expected_commitment with
    | some e =>
        if !commitment_ok r e then
          Except.error "commitment does not match expected commitment"
        else Except.ok ()
    | none => Except.ok ()

/-- The `WebRecord::telegram` accessor: query a telegram handle. -/
def telegram (r : WebRecord) : Option String :=
  (jget r "telegram").bind jsonAsStr

/-- The `WebRecord::introductions` accessor. -/
def introductions (r : WebRecord) : Option (List (String × Json)) :=
  (jget r "introductions").bind jsonAsObject

/-- The `rust_decimal::Decimal` value produced by fee parsing: an
integer mantissa with a power-of-ten scale. -/
structure Decimal where
  mantissa : Int
  scale : Nat
deriving DecidableEq

/-- Digit scanner for decimal parsing: consumes digits, underscores
between digits, and at most one decimal point, returning the mantissa
and scale, or nothing on any other character or when no digit was
seen. -/
def decFromStrAux : List Char → Bool → Bool → Nat → Nat → Option (Nat × Nat)
  | [], seenDigit, _, m, sc => if seenDigit then some (m, sc) else none
  | c :: rest, seenDigit, seenDot, m, sc =>
    if c.isDigit then
      decFromStrAux rest true seenDot (m * 10 + (c.toNat - 48))
        (if seenDot then sc + 1 else sc)
    else if c = '_' then
      if seenDigit then decFromStrAux rest seenDigit seenDot m sc else none
    else if c = '.' then
      if seenDot then none else decFromStrAux rest seenDigit true m sc
    else none

/-- Modelled from the spec: `rust_decimal::Decimal::from_str` (the
`rust_decimal` crate is a dependency whose source is not under
`src/`); per the spec the found value must be a string parseable as an
exact decimal number, with no binary-floating-point rounding.  An
optional sign is followed by digits with at most one decimal point;
underscore separators are accepted after a digit; the mantissa is
bounded by the 96-bit capacity and the scale by 28 (the handling the
crate applies to digits beyond that capacity is not modelled; no claim
exercises it).  The `Result` is modelled as `Option`, matching the
`.ok()` applied at the call site. -/
def decimal_from_str (s : String) : Option Decimal :=
  match s.data with
  | [] => none
  | cs =>
    let p : Bool × List Char :=
      match cs with
      | '-' :: r => (true, r)
      | '+' :: r => (false, r)
      | r => (false, r)
    (decFromStrAux p.2 false false 0 0).bind fun ms =>
      if ms.2 ≤ 28 ∧ ms.1 < 79228162514264337593543950336 then
        some ⟨if p.1 then -(ms.1 : Int) else (ms.1 : Int), ms.2⟩
      else none

/-- The `WebRecord::introductions_telegram_fee` accessor: the fee is
resolved first from the telegram-specific key, then from the
non-specific platform fee key. -/
def introductions_telegram_fee (r : WebRecord) : Option Decimal :=
  (introductions r).bind fun intro =>
    (((jget intro "telegram").or (jget intro "fee")).bind jsonAsStr).bind
      fun fee => decimal_from_str fee

/-! The `BitnameInfo` descriptor and its deserialization, from
`src/bitnames.rs`.  The field decoders (`serde_with` hex, the standard
library address parsers) are dependencies whose source is not under
`src/` and are modelled from the documented formats. -/

/-- Hexadecimal digit value, both cases accepted. -/
def hexDigitVal (c : Char) : Option Nat :=
  if 48 ≤ c.toNat ∧ c.toNat ≤ 57 then some (c.toNat - 48)
  else if 97 ≤ c.toNat ∧ c.toNat ≤ 102 then some (c.toNat - 87)
  else if 65 ≤ c.toNat ∧ c.toNat ≤ 70 then some (c.toNat - 55)
  else none

/-- Decode an even-length hexadecimal character sequence into bytes. -/
def hexDecodeBytes : List Char → Option (List Nat)
  | [] => some []
  | c1 :: c2 :: rest =>
      match hexDigitVal c1, hexDigitVal c2, hexDecodeBytes rest with
      | some h1, some h2, some bs => some ((h1 * 16 + h2) :: bs)
      | _, _, _ => none
  | [_] => none

/-- Modelled from the spec: decoding of the `commitment` field through
`serde_as` with `SerdeWithHex` into `[u8; 32]` — a hex string that
must decode to exactly 32 bytes. -/
def parse_commitment_hex (s : String) : Option (List Nat) :=
  (hexDecodeBytes s.data).bind fun b =>
    if b.length = 32 then some b else none

/-- An IPv4 address as four octets. -/
structure Ipv4Addr where
  o1 : Nat
  o2 : Nat
  o3 : Nat
  o4 : Nat
deriving DecidableEq

/-- An IPv6 address as eight 16-bit groups. -/
structure Ipv6Addr where
  g1 : Nat
  g2 : Nat
  g3 : Nat
  g4 : Nat
  g5 : Nat
  g6 : Nat
  g7 : Nat
  g8 : Nat
deriving DecidableEq

/-- The `std::net::IpAddr` sum of the two address families. -/
inductive IpAddr where
  | v4 (a : Ipv4Addr) : IpAddr
  | v6 (a : Ipv6Addr) : IpAddr
deriving DecidableEq

/-- Split a character list at every occurrence of `sep`. -/
def splitChar (sep : Char) : List Char → List (List Char)
  | [] => [[]]
  | c :: rest =>
      if c = sep then [] :: splitChar sep rest
      else
        match splitChar sep rest with
        | s :: ss => (c :: s) :: ss
        | [] => [[c]]

/-- Decimal value of a digit sequence. -/
def digitsVal (cs : List Char) : Nat :=
  cs.foldl (fun a c => a * 10 + (c.toNat - 48)) 0

/-- Modelled from the spec: one dotted-decimal IPv4 octet as accepted
by `Ipv4Addr::from_str` — decimal digits, value at most 255, no
leading zero. -/
def parseIpv4Octet (p : List Char) : Option Nat :=
  match p with
  | [] => none
  | ['0'] => some 0
  | '0' :: _ :: _ => none
  | cs =>
      if cs.all Char.isDigit ∧ digitsVal cs ≤ 255 then some (digitsVal cs)
      else none

/-- Modelled from the spec: `Ipv4Addr::from_str` — exactly four
dotted-decimal octets. -/
def ipv4_from_str (s : String) : Option Ipv4Addr :=
  match splitChar '.' s.data with
  | [p1, p2, p3, p4] =>
      match parseIpv4Octet p1, parseIpv4Octet p2,
            parseIpv4Octet p3, parseIpv4Octet p4 with
      | some a, some b, some c, some d => some ⟨a, b, c, d⟩
      | _, _, _, _ => none
  | _ => none

/-- One colon-hex IPv6 group: one to four hexadecimal digits. -/
def parseHexGroup (cs : List Char) : Option Nat :=
  (cs.mapM hexDigitVal).bind fun ds =>
    if ds ≠ [] ∧ ds.length ≤ 4 then
      some (ds.foldl (fun a d => a * 16 + d) 0)
    else none

/-- Parse colon-separated IPv6 segments into 16-bit groups; an
embedded dotted-decimal IPv4 address is accepted only as the final
segment and only when `allowV4` is set, contributing two groups. -/
def parseSegs : List (List Char) → Bool → Option (List Nat)
  | [], _ => some []
  | [seg], allowV4 =>
      if seg.contains '.' then
        if allowV4 then
          match splitChar '.' seg with
          | [p1, p2, p3, p4] =>
              match parseIpv4Octet p1, parseIpv4Octet p2,
                    parseIpv4Octet p3, parseIpv4Octet p4 with
              | some a, some b, some c, some d =>
                  some [a * 256 + b, c * 256 + d]
              | _, _, _, _ => none
          | _ => none
        else none
      else (parseHexGroup seg).map (fun g => [g])
  | seg :: rest, allowV4 =>
      match parseHexGroup seg, parseSegs rest allowV4 with
      | some g, some gs => some (g :: gs)
      | _, _ => none

/-- Locate the first double colon, returning the characters before and
after it. -/
def findDoubleColon : List Char → Option (List Char × List Char)
  | [] => none
  | ':' :: ':' :: rest => some ([], rest)
  | c :: rest => (findDoubleColon rest).map (fun p => (c :: p.1, p.2))

/-- Build an address from exactly eight groups. -/
def mkIpv6 : List Nat → Option Ipv6Addr
  | [g1, g2, g3, g4, g5, g6, g7, g8] =>
      some ⟨g1, g2, g3, g4, g5, g6, g7, g8⟩
  | _ => none

/-- Modelled from the spec: `Ipv6Addr::from_str` — colon-hex groups,
at most one double colon standing for one or more zero groups, an
embedded dotted-decimal IPv4 suffix allowed in the final position. -/
def ipv6_from_str (s : String) : Option Ipv6Addr :=
  let cs := s.data
  match findDoubleColon cs with
  | none =>
      (parseSegs (splitChar ':' cs) true).bind fun gs =>
        if gs.length = 8 then mkIpv6 gs else none
  | some p =>
      let heads := if p.1 = [] then [] else splitChar ':' p.1
      let tails := if p.2 = [] then [] else splitChar ':' p.2
      (parseSegs heads false).bind fun hg =>
        (parseSegs tails true).bind fun tg =>
          if hg.length + tg.length ≤ 7 then
            mkIpv6 (hg ++ List.replicate (8 - hg.length - tg.length) 0 ++ tg)
          else none

/-- The transport envelope carrying a descriptor: each field is either
absent or a string, as delivered to the `serde` deserializer of
`BitnameInfo`. -/
structure BitnameInfoRaw where
  commitment : Option String
  ip4_addr : Option String
  ip6_addr : Option String

/-- The parsed `struct BitnameInfo`. -/
structure BitnameInfo where
  commitment : Option (List Nat)
  ip4_addr : Option Ipv4Addr
  ip6_addr : Option Ipv6Addr

/-- Decode one optional field: absence stays absence, a present string
must decode or the whole decode fails. -/
def decodeOptField (f : String → Option α) : Option String → Option (Option α)
  | none => some none
  | some s => (f s).map some

/-- Modelled from the spec: the derived `serde` deserializer of
`BitnameInfo` with its `serde_as` field adapters — every present field
must decode (hex commitment of exactly 32 bytes, valid address
literals) or the whole descriptor parse fails; absent fields decode to
absence. -/
def bitname_info_deserialize (raw : BitnameInfoRaw) : Option BitnameInfo :=
  (decodeOptField parse_commitment_hex raw.commitment).bind fun c =>
    (decodeOptField ipv4_from_str raw.ip4_addr).bind fun a4 =>
      (decodeOptField ipv6_from_str raw.ip6_addr).bind fun a6 =>
        some ⟨c, a4, a6⟩

/-- The `BitnameInfo::ip_addr` method: the IPv6 address if present,
else the IPv4 address, else absent. -/
def ip_addr (i : BitnameInfo) : Option IpAddr :=
  (i.ip6_addr.map IpAddr.v6).or (i.ip4_addr.map IpAddr.v4)

/-! Helper lemmas. -/

/-- Under distinct keys, lookup success coincides with membership. -/
theorem jget_eq_some_iff {l : List (String × Json)}
    (h : (l.map Prod.fst).Nodup) {k : String} {v : Json} :
    jget l k = some v ↔ (k, v) ∈ l := by
  induction l with
  | nil => simp [jget]
  | cons p rest ih =>
    obtain ⟨k1, v1⟩ := p
    simp only [List.map_cons, List.nodup_cons] at h
    by_cases hk : k1 = k
    · subst hk
      rw [show jget ((k1, v1) :: rest) k1 = some v1 from by simp [jget]]
      simp only [List.mem_cons, Option.some.injEq, Prod.mk.injEq]
      constructor
      · intro hv
        exact Or.inl ⟨trivial, hv.symm⟩
      · rintro (⟨-, rfl⟩ | hmem)
        · rfl
        · exact absurd (List.mem_map_of_mem Prod.fst hmem) h.1
    · simp only [jget, if_neg hk, List.mem_cons, Prod.mk.injEq]
      rw [ih h.2]
      constructor
      · exact Or.inr
      · rintro (⟨rfl, -⟩ | hmem)
        · exact absurd rfl hk
        · exact hmem

/-- Two records with distinct keys and identical lookups are
permutations of each other. -/
theorem perm_of_jget_eq {l1 l2 : List (String × Json)}
    (h1 : (l1.map Prod.fst).Nodup) (h2 : (l2.map Prod.fst).Nodup)
    (h : ∀ k, jget l1 k = jget l2 k) : l1.Perm l2 := by
  refine (List.perm_ext_iff_of_nodup (List.Nodup.of_map _ h1)
    (List.Nodup.of_map _ h2)).mpr ?_
  rintro ⟨k, v⟩
  rw [← jget_eq_some_iff h1, ← jget_eq_some_iff h2, h k]

/-- Strict key order on entries. -/
def keyLt (a b : String × Json) : Prop := a.1 < b.1

instance : IsAntisymm (String × Json) keyLt :=
  ⟨fun _ _ hab hba => (lt_asymm hab hba).elim⟩

/-- A key-sorted list with distinct keys is strictly key-sorted. -/
theorem sorted_keyLt_of_sorted_keyLe {l : List (String × Json)}
    (hs : List.Sorted keyLe l) (hn : (l.map Prod.fst).Nodup) :
    List.Sorted keyLt l := by
  have hne : l.Pairwise (fun a b : String × Json => a.1 ≠ b.1) := by
    rw [List.Nodup, List.pairwise_map] at hn
    exact hn
  exact (hs.and hne).imp (fun h => lt_of_le_of_ne h.1 h.2)

/-- Permuted records with distinct keys sort to the same entry list. -/
theorem sortEntries_eq_of_perm {l1 l2 : List (String × Json)}
    (hp : l1.Perm l2) (h1 : (l1.map Prod.fst).Nodup) :
    sortEntries l1 = sortEntries l2 := by
  have hperm : (sortEntries l1).Perm (sortEntries l2) :=
    ((List.perm_insertionSort keyLe l1).trans hp).trans
      (List.perm_insertionSort keyLe l2).symm
  have hn1 : ((sortEntries l1).map Prod.fst).Nodup :=
    (((List.perm_insertionSort keyLe l1).map Prod.fst).nodup_iff).mpr h1
  have hn2 : ((sortEntries l2).map Prod.fst).Nodup :=
    ((hperm.map Prod.fst).nodup_iff).mp hn1
  exact List.eq_of_perm_of_sorted hperm
    (sorted_keyLt_of_sorted_keyLe (List.sorted_insertionSort keyLe l1) hn1)
    (sorted_keyLt_of_sorted_keyLe (List.sorted_insertionSort keyLe l2) hn2)

/-- Object serialization depends on the entries only through their
key-sorted form. -/
theorem to_vec_obj_congr {l1 l2 : List (String × Json)}
    (h : sortEntries l1 = sortEntries l2) :
    serde_jcs_to_vec (Json.obj l1) = serde_jcs_to_vec (Json.obj l2) := by
  simp only [serde_jcs_to_vec, h]

/-- Element serialization succeeds when every element serializes. -/
theorem serializeElems_isSome {xs : List Json}
    (h : ∀ x ∈ xs, (serde_jcs_to_vec x).isSome) :
    (serializeElems xs).isSome := by
  induction xs with
  | nil => simp [serializeElems]
  | cons x rest ih =>
    obtain ⟨b, hb⟩ := Option.isSome_iff_exists.mp (h x (List.mem_cons_self x rest))
    obtain ⟨bs, hbs⟩ := Option.isSome_iff_exists.mp
      (ih fun y hy => h y (List.mem_cons_of_mem x hy))
    simp [serializeElems, hb, hbs]

/-- Entry serialization succeeds when every value serializes. -/
theorem serializeEntries_isSome {es : List (String × Json)}
    (h : ∀ p ∈ es, (serde_jcs_to_vec p.2).isSome) :
    (serializeEntries es).isSome := by
  induction es with
  | nil => simp [serializeEntries]
  | cons p rest ih =>
    obtain ⟨k, v⟩ := p
    obtain ⟨b, hb⟩ := Option.isSome_iff_exists.mp
      (h (k, v) (List.mem_cons_self (k, v) rest))
    obtain ⟨bs, hbs⟩ := Option.isSome_iff_exists.mp
      (ih fun q hq => h q (List.mem_cons_of_mem _ hq))
    have hb2 : serde_jcs_to_vec v = some b := hb
    simp [serializeEntries, hb2, hbs]

/-- Canonical serialization succeeds on every value of the model, by
strong induction on size. -/
theorem to_vec_isSome_aux :
    ∀ (n : Nat) (v : Json), sizeOf v ≤ n → (serde_jcs_to_vec v).isSome := by
  intro n
  induction n using Nat.strong_induction_on with
  | _ n ih =>
    intro v hv
    match v with
    | Json.null => simp [serde_jcs_to_vec]
    | Json.bool b => cases b <;> simp [serde_jcs_to_vec]
    | Json.num m => simp [serde_jcs_to_vec]
    | Json.str s => simp [serde_jcs_to_vec]
    | Json.arr xs =>
      have hx : ∀ x ∈ xs, (serde_jcs_to_vec x).isSome := by
        intro x hxm
        have hsz := List.sizeOf_lt_sizeOf_of_mem hxm
        have harr : sizeOf (Json.arr xs) = 1 + sizeOf xs := by
          simp [Json.arr.sizeOf_spec]
        exact ih (sizeOf x) (by omega) x le_rfl
      obtain ⟨parts, hp⟩ :=
        Option.isSome_iff_exists.mp (serializeElems_isSome hx)
      simp [serde_jcs_to_vec, hp]
    | Json.obj es =>
      have hx : ∀ p ∈ sortEntries es, (serde_jcs_to_vec p.2).isSome := by
        intro p hpm
        have hmem : p ∈ es :=
          (List.perm_insertionSort keyLe es).mem_iff.mp hpm
        have hsz := List.sizeOf_lt_sizeOf_of_mem hmem
        obtain ⟨k, w⟩ := p
        have hpair : sizeOf ((k, w) : String × Json) =
            1 + sizeOf k + sizeOf w := by simp
        have hobj : sizeOf (Json.obj es) = 1 + sizeOf es := by
          simp [Json.obj.sizeOf_spec]
        exact ih (sizeOf w) (by omega) w le_rfl
      obtain ⟨parts, hp⟩ :=
        Option.isSome_iff_exists.mp (serializeEntries_isSome hx)
      simp [serde_jcs_to_vec, hp]

/-- Canonical serialization succeeds on every value of the model. -/
theorem to_vec_isSome (v : Json) : (serde_jcs_to_vec v).isSome :=
  to_vec_isSome_aux (sizeOf v) v le_rfl

/-- Every word encodes to bytes below 256. -/
theorem wordBytes_lt {w : Nat} : ∀ b ∈ wordBytes w, b < 256 := by
  intro b hb
  simp only [wordBytes, List.mem_cons, List.not_mem_nil, or_false] at hb
  rcases hb with rfl | rfl | rfl | rfl <;> exact Nat.mod_lt _ (by decide)

/-- Every SHA-256 digest byte is below 256. -/
theorem sha256_bytes_lt (msg : List Nat) : ∀ b ∈ sha256 msg, b < 256 := by
  intro b hb
  simp only [sha256, digestBytes, List.mem_append] at hb
  rcases hb with ((((((h | h) | h) | h) | h) | h) | h) | h <;>
    exact wordBytes_lt _ h

/-! Claim theorems. -/

/-- C1: the commitment is a deterministic function of the structural
content of a record: canonical serialization sorts object keys in the
lexicographic order over the raw key codepoints, so two records with
distinct keys containing the same key-to-value mappings, regardless of
the order in which keys were inserted, produce bit-for-bit identical
canonical bytes and equal digests. -/
theorem commitment_deterministic (r1 r2 : WebRecord)
    (h1 : (r1.map Prod.fst).Nodup) (h2 : (r2.map Prod.fst).Nodup)
    (h : ∀ k, jget r1 k = jget r2 k) :
    serde_jcs_to_vec (Json.obj r1) = serde_jcs_to_vec (Json.obj r2) ∧
    commitment r1 = commitment r2 := by
  have hv := to_vec_obj_congr
    (sortEntries_eq_of_perm (perm_of_jget_eq h1 h2 h) h1)
  refine ⟨hv, ?_⟩
  unfold commitment
  rw [hv]

theorem commitment_deterministic_witness :
    commitment [("b", Json.num 1), ("a", Json.str "x")] =
      commitment [("a", Json.str "x"), ("b", Json.num 1)] := by
  refine (commitment_deterministic _ _ (by decide) (by decide) ?_).2
  intro k
  by_cases hb : "b" = k
  · by_cases ha : "a" = k
    · exact absurd (ha.trans hb.symm) (by decide)
    · simp [jget, hb, ha]
  · by_cases ha : "a" = k
    · simp [jget, hb, ha]
    · simp [jget, hb, ha]

/-- C2: validation checks the version first, failing with the
unsupported-version error whenever `version_ok` is false regardless of
the commitment argument; with a good version it fails with the
commitment-mismatch error exactly when a differing expected commitment
was supplied, succeeds on `none` regardless of other content, and
succeeds on a matching supplied commitment. -/
theorem validate_cases (r : WebRecord) (ec : Option (List Nat)) :
    (version_ok r = false →
      validate r ec = Except.error "version number missing or unsupported") ∧
    (version_ok r = true → ∀ e, ec = some e → commitment r ≠ e →
      validate r ec =
        Except.error "commitment does not match expected commitment") ∧
    (version_ok r = true → validate r none = Except.ok ()) ∧
    (version_ok r = true → ∀ e, ec = some e → commitment r = e →
      validate r ec = Except.ok ()) := by
  refine ⟨?_, ?_, ?_, ?_⟩
  · intro hv
    simp [validate, hv]
  · rintro hv e rfl hne
    simp [validate, hv, commitment_ok, hne]
  · intro hv
    simp [validate, hv]
  · rintro hv e rfl heq
    simp [validate, hv, commitment_ok, heq]

theorem validate_cases_witness :
    validate [] none =
      Except.error "version number missing or unsupported" :=
  (validate_cases [] none).1 (by decide)

/-- C5: `version_ok` is true exactly when the "version" key holds the
string "0.0.1"; absence, any other string, or any non-string value
yields false. -/
theorem version_ok_iff (r : WebRecord) :
    version_ok r = true ↔ jget r "version" = some (Json.str "0.0.1") := by
  unfold version_ok
  cases hv : jget r "version" with
  | none => simp
  | some v => cases v <;> simp_all

theorem version_ok_iff_witness :
    version_ok [("version", Json.str "0.0.1")] = true :=
  (version_ok_iff _).mpr (by simp [jget])

/-- C6: feeding the recomputed commitment of a record back as the
expected value always passes the comparison. -/
theorem commitment_ok_self (r : WebRecord) :
    commitment_ok r (commitment r) = true := by
  simp [commitment_ok]

/-- C7: the resolved address is the IPv6 address when present, whether
or not an IPv4 address is also present; else the IPv4 address when
present; else absent. -/
theorem ip_addr_cases (i : BitnameInfo) :
    (∀ a6, i.ip6_addr = some a6 → ip_addr i = some (IpAddr.v6 a6)) ∧
    (i.ip6_addr = none → ∀ a4, i.ip4_addr = some a4 →
      ip_addr i = some (IpAddr.v4 a4)) ∧
    (i.ip6_addr = none → i.ip4_addr = none → ip_addr i = none) := by
  refine ⟨?_, ?_, ?_⟩ <;> intros <;> simp_all [ip_addr]

theorem ip_addr_cases_witness :
    ip_addr ⟨none, some ⟨1, 2, 3, 4⟩, some ⟨0, 0, 0, 0, 0, 0, 0, 1⟩⟩ =
      some (IpAddr.v6 ⟨0, 0, 0, 0, 0, 0, 0, 1⟩) :=
  (ip_addr_cases _).1 _ rfl

/-- C8: typed field extraction is total and best-effort: the telegram
accessor returns a value exactly when the "telegram" key holds a
string, the introductions accessor exactly when the "introductions"
key holds a nested mapping; every structural mismatch yields absence,
never an error. -/
theorem extraction_best_effort (r : WebRecord) :
    (∀ s, telegram r = some s ↔ jget r "telegram" = some (Json.str s)) ∧
    (∀ m, introductions r = some m ↔
      jget r "introductions" = some (Json.obj m)) := by
  constructor
  · intro s
    unfold telegram
    cases hv : jget r "telegram" with
    | none => simp
    | some v => cases v <;> simp [jsonAsStr]
  · intro m
    unfold introductions
    cases hv : jget r "introductions" with
    | none => simp
    | some v => cases v <;> simp [jsonAsObject]

theorem extraction_best_effort_witness :
    telegram [("telegram", Json.str "bob")] = some "bob" :=
  ((extraction_best_effort _).1 "bob").mpr (by simp [jget])

/-- C3 counterexample: the specific fee key consulted first is the
fixed platform key "telegram", not the handle of the record; for a
record whose telegram handle is "alice" and whose introductions are
the mapping with "alice" at 1.50 and "fee" at 2.00, fee resolution
does not yield 1.50 but falls back to "fee" and yields 2.00, because
the mapping has no "telegram" key. -/
theorem fee_handle_lookup_refuted :
    telegram
        [("version", Json.str "0.0.1"), ("telegram", Json.str "alice"),
         ("introductions",
          Json.obj [("alice", Json.str "1.50"), ("fee", Json.str "2.00")])] =
      some "alice" ∧
    introductions_telegram_fee
        [("version", Json.str "0.0.1"), ("telegram", Json.str "alice"),
         ("introductions",
          Json.obj [("alice", Json.str "1.50"), ("fee", Json.str "2.00")])] ≠
      some ⟨150, 2⟩ ∧
    introductions_telegram_fee
        [("version", Json.str "0.0.1"), ("telegram", Json.str "alice"),
         ("introductions",
          Json.obj [("alice", Json.str "1.50"), ("fee", Json.str "2.00")])] =
      some ⟨200, 2⟩ := by
  refine ⟨rfl, ?_, rfl⟩
  decide

/-- C3 amended: fee resolution looks up the fixed platform-specific
key "telegram" inside the introductions mapping first and falls back
to the generic "fee" key only when "telegram" is absent; the found
value must be a string that parses as an exact decimal, else the
result is absent.  For the mapping with "alice" at 1.50 and "fee" at
2.00 the fee resolves to 2.00 through the fallback, for the mapping
with "telegram" at 1.50 and "fee" at 2.00 it resolves to 1.50, and an
empty introductions mapping yields absent. -/
theorem fee_resolution_amended (r : WebRecord)
    (intro : List (String × Json)) (h : introductions r = some intro) :
    (∀ v, jget intro "telegram" = some v →
      introductions_telegram_fee r = (jsonAsStr v).bind decimal_from_str) ∧
    (jget intro "telegram" = none → ∀ v, jget intro "fee" = some v →
      introductions_telegram_fee r = (jsonAsStr v).bind decimal_from_str) ∧
    (jget intro "telegram" = none → jget intro "fee" = none →
      introductions_telegram_fee r = none) ∧
    introductions_telegram_fee
        [("introductions",
          Json.obj [("alice", Json.str "1.50"), ("fee", Json.str "2.00")])] =
      some ⟨200, 2⟩ ∧
    introductions_telegram_fee
        [("introductions",
          Json.obj [("telegram", Json.str "1.50"),
                    ("fee", Json.str "2.00")])] =
      some ⟨150, 2⟩ ∧
    introductions_telegram_fee [("introductions", Json.obj [])] = none := by
  refine ⟨?_, ?_, ?_, rfl, rfl, rfl⟩
  · intro v hv
    unfold introductions_telegram_fee
    rw [h]
    simp [hv]
  · intro ht v hf
    unfold introductions_telegram_fee
    rw [h]
    simp [ht, hf]
  · intro ht hf
    unfold introductions_telegram_fee
    rw [h]
    simp [ht, hf]

theorem fee_resolution_amended_witness :
    introductions_telegram_fee
        [("introductions", Json.obj [("fee", Json.str "2.00")])] =
      some ⟨200, 2⟩ := by
  have h := (fee_resolution_amended
    [("introductions", Json.obj [("fee", Json.str "2.00")])]
    [("fee", Json.str "2.00")] (by simp [introductions, jget, jsonAsObject]))
  exact (h.2.1 (by simp [jget]) (Json.str "2.00") (by simp [jget])).trans rfl

/-- C10: when the introductions mapping holds a "telegram" key whose
value is not a string or does not parse as a decimal, the fee is
absent and the generic "fee" key is never consulted; the fallback is
taken only when the specific key is entirely absent. -/
theorem fee_no_fallback (r : WebRecord) (intro : List (String × Json))
    (h : introductions r = some intro) (v : Json)
    (hv : jget intro "telegram" = some v) :
    introductions_telegram_fee r = (jsonAsStr v).bind decimal_from_str ∧
    ((jsonAsStr v).bind decimal_from_str = none →
      introductions_telegram_fee r = none) := by
  have hmain : introductions_telegram_fee r =
      (jsonAsStr v).bind decimal_from_str := by
    unfold introductions_telegram_fee
    rw [h]
    simp [hv]
  exact ⟨hmain, fun hn => hmain.trans hn⟩

theorem fee_no_fallback_witness :
    introductions_telegram_fee
        [("introductions",
          Json.obj [("telegram", Json.num 5), ("fee", Json.str "2.00")])] =
      none :=
  (fee_no_fallback _ [("telegram", Json.num 5), ("fee", Json.str "2.00")]
    (by simp [introductions, jget, jsonAsObject]) (Json.num 5)
    (by simp [jget])).2 rfl

/-- C4: the commitment computation is total on the value model:
canonical serialization never fails on any representable record, so
the unwrap inside the commitment computation is unreachable and the
commitment is always a digest of exactly 32 bytes. -/
theorem commitment_total (r : WebRecord) :
    (serde_jcs_to_vec (Json.obj r)).isSome = true ∧
    (commitment r).length = 32 ∧ ∀ b ∈ commitment r, b < 256 :=
  ⟨to_vec_isSome _, sha256_length _, sha256_bytes_lt _⟩

/-- Decoding one optional field succeeds exactly on absence or on a
present, decodable string. -/
theorem decodeOptField_eq_some {f : String → Option α} {o : Option String}
    {r : Option α} :
    decodeOptField f o = some r ↔
      (o = none ∧ r = none) ∨
      (∃ s a, o = some s ∧ f s = some a ∧ r = some a) := by
  cases o with
  | none => simp [decodeOptField, eq_comm]
  | some s => cases hf : f s <;> simp [decodeOptField, hf, eq_comm]

/-- Descriptor decoding succeeds exactly when all three optional
fields decode. -/
theorem deserialize_some_iff {raw : BitnameInfoRaw} {info : BitnameInfo} :
    bitname_info_deserialize raw = some info ↔
      decodeOptField parse_commitment_hex raw.commitment =
        some info.commitment ∧
      decodeOptField ipv4_from_str raw.ip4_addr = some info.ip4_addr ∧
      decodeOptField ipv6_from_str raw.ip6_addr = some info.ip6_addr := by
  obtain ⟨oc, o4, o6⟩ := raw
  obtain ⟨ic, i4, i6⟩ := info
  unfold bitname_info_deserialize
  cases hc : decodeOptField parse_commitment_hex oc <;>
    cases h4 : decodeOptField ipv4_from_str o4 <;>
      cases h6 : decodeOptField ipv6_from_str o6 <;>
        simp [BitnameInfo.mk.injEq, eq_comm, and_assoc]

/-- C9: descriptor construction is all-or-nothing: a present field
that fails to decode (hex commitment not decoding to exactly 32
bytes, or an invalid address literal) fails the whole parse, and a
successful parse carries exactly the decoded present fields, with
absent fields decoded to absence rather than defaults. -/
theorem bitname_decode_all_or_nothing (raw : BitnameInfoRaw) :
    (((∃ s, raw.commitment = some s ∧ parse_commitment_hex s = none) ∨
      (∃ s, raw.ip4_addr = some s ∧ ipv4_from_str s = none) ∨
      (∃ s, raw.ip6_addr = some s ∧ ipv6_from_str s = none)) →
      bitname_info_deserialize raw = none) ∧
    (∀ info, bitname_info_deserialize raw = some info →
      ((raw.commitment = none ∧ info.commitment = none) ∨
        (∃ s b, raw.commitment = some s ∧ parse_commitment_hex s = some b ∧
          info.commitment = some b)) ∧
      ((raw.ip4_addr = none ∧ info.ip4_addr = none) ∨
        (∃ s a, raw.ip4_addr = some s ∧ ipv4_from_str s = some a ∧
          info.ip4_addr = some a)) ∧
      ((raw.ip6_addr = none ∧ info.ip6_addr = none) ∨
        (∃ s a, raw.ip6_addr = some s ∧ ipv6_from_str s = some a ∧
          info.ip6_addr = some a))) := by
  constructor
  · intro hbad
    cases hd : bitname_info_deserialize raw with
    | none => rfl
    | some info =>
      rw [deserialize_some_iff] at hd
      exfalso
      rcases hbad with ⟨s, hs, hp⟩ | ⟨s, hs, hp⟩ | ⟨s, hs, hp⟩
      · have := hd.1
        rw [hs] at this
        simp [decodeOptField, hp] at this
      · have := hd.2.1
        rw [hs] at this
        simp [decodeOptField, hp] at this
      · have := hd.2.2
        rw [hs] at this
        simp [decodeOptField, hp] at this
  · intro info hinfo
    rw [deserialize_some_iff] at hinfo
    exact ⟨decodeOptField_eq_some.mp hinfo.1,
           decodeOptField_eq_some.mp hinfo.2.1,
           decodeOptField_eq_some.mp hinfo.2.2⟩

theorem bitname_decode_witness :
    bitname_info_deserialize ⟨none, some "999.1.1.1", none⟩ = none ∧
    bitname_info_deserialize
        ⟨some "00112233445566778899aabbccddeeff00112233445566778899aabbccddee",
         none, none⟩ = none :=
  ⟨(bitname_decode_all_or_nothing _).1
      (Or.inr (Or.inl ⟨"999.1.1.1", rfl, by decide⟩)),
   (bitname_decode_all_or_nothing _).1
      (Or.inl
        ⟨"00112233445566778899aabbccddeeff00112233445566778899aabbccddee",
         rfl, by decide⟩)⟩

end Bitnames
